import Mathlib

/-!
Verification of the room-lifecycle and state-broadcast engine of
`src/server.js` (a WebSocket game-lobby server).

The JavaScript source is shallowly embedded:

* a JS `Map` is an insertion-ordered association list with unique keys
  (`mapLookup`, `mapSet`, `mapDelete`);
* each `ws.on('message')` case becomes a pure handler taking the global
  state (the `rooms` registry plus every room object ever allocated, so
  that stale references held by a session keep their JS object identity)
  and a per-connection session record, returning the new state together
  with the list of messages written to sockets;
* `Math.random()` draws are passed in explicitly: a room-code draw is a
  natural number `k < 9000` standing for `Math.floor(Math.random()*9000)`,
  and a role draw is an index into the remaining role array (`0` when the
  array is empty, since `Math.floor(Math.random()*0) = 0`);
* `ws.readyState === WebSocket.OPEN` becomes the Boolean field `wsOpen`.
-/

namespace Smartto

/-- One entry of a room's configured role pool, `{ name, count }`. -/
structure RoleEntry where
  name : String
  count : Nat
deriving DecidableEq, Repr

/-- A member record stored in `room.players`: `{ id, ws, joinTime }`.
The live socket is abstracted to its open/closed status. -/
structure PlayerRec where
  id : String
  wsOpen : Bool
  joinTime : Nat
deriving DecidableEq, Repr

/-- Insertion-ordered association list model of a JS `Map`. -/
def mapLookup {κ α : Type} [DecidableEq κ] : List (κ × α) → κ → Option α
  | [], _ => none
  | (k, v) :: rest, key => if k = key then some v else mapLookup rest key

/-- `Map.prototype.set`: replaces the value of an existing key in place,
otherwise appends the binding at the end (insertion order). -/
def mapSet {κ α : Type} [DecidableEq κ] : List (κ × α) → κ → α → List (κ × α)
  | [], key, v => [(key, v)]
  | (k, w) :: rest, key, v =>
      if k = key then (key, v) :: rest else (k, w) :: mapSet rest key v

/-- `Map.prototype.delete`: removes the binding of the key, if present. -/
def mapDelete {κ α : Type} [DecidableEq κ] : List (κ × α) → κ → List (κ × α)
  | [], _ => []
  | (k, w) :: rest, key =>
      if k = key then rest else (k, w) :: mapDelete rest key

/-! ### Room model (`src/server.js` lines 20-44) -/

/-- A room object, as built by `createRoom` in the source. -/
structure Room where
  code : String
  host : Option String
  maxPlayers : Nat
  roles : List RoleEntry
  players : List (String × PlayerRec)
  gameStarted : Bool
deriving DecidableEq, Repr

/-- `createRoom(roomCode)`: the default room record. -/
def createRoom (roomCode : String) : Room :=
  { code := roomCode
    host := none
    maxPlayers := 5
    roles := [⟨("당첨"), 3⟩, ⟨("꽝"), 2⟩]
    players := []
    gameStarted := false }

/-- `generateRoomCode()`: repeatedly draw `k = Math.floor(Math.random()*9000)`
and form the string `(1000 + k).toString()` until it is not a key of `rooms`.
The draws are supplied as a list; an exhausted list models the (probability
zero) forever-colliding run, in which the loop never returns. -/
def generateRoomCode (registryCodes : List String) : List Nat → Option String
  | [] => none
  | k :: rest =>
      let code := toString (1000 + k)
      if code ∈ registryCodes then generateRoomCode registryCodes rest
      else some code

/-! ### Role assignment (`startGame` case, lines 178-194) -/

/-- The flat role array `allRoles` built by pushing each `role.name`
`role.count` times, in pool order. -/
def flatPool (roles : List RoleEntry) : List String :=
  (roles.map (fun r => List.replicate r.count r.name)).flatten

/-- The draw loop: for each player in order, read `allRoles[randomIndex]`
(`none` models the JS `undefined` read past the end) and splice that index
out. One pick is consumed per player. -/
def assignRoles : List String → List String → List Nat → List (String × Option String)
  | [], _, _ => []
  | _ :: _, _, [] => []
  | p :: ps, pool, k :: ks => (p, pool[k]?) :: assignRoles ps (pool.eraseIdx k) ks

/-- Validity of a pick sequence against a pool of initial length `n`:
`Math.floor(Math.random() * len)` yields an index `< len` when `len > 0`
and exactly `0` when `len = 0` (and then `splice` is a no-op). -/
def validPicks : Nat → List Nat → Bool
  | _, [] => true
  | n, k :: ks => (decide (k < n) || (decide (n = 0) && decide (k = 0))) && validPicks (n - 1) ks

/-! ### Host succession (`leaveRoom` case lines 146-150, close handler lines 221-225) -/

/-- Comparator used by `.sort((a, b) => a.joinTime - b.joinTime)`. -/
def byJoinTime (a b : PlayerRec) : Prop := a.joinTime ≤ b.joinTime

instance : DecidableRel byJoinTime := fun a b => Nat.decLe a.joinTime b.joinTime

instance : IsTotal PlayerRec byJoinTime := ⟨fun a b => Nat.le_total a.joinTime b.joinTime⟩

instance : IsTrans PlayerRec byJoinTime := ⟨fun _ _ _ => Nat.le_trans⟩

/-- `Array.from(players.values()).sort((a,b) => a.joinTime - b.joinTime)[0]`:
the head of the stable sort of the member records by join time. -/
def oldestPlayer (ps : List PlayerRec) : Option PlayerRec :=
  (List.insertionSort byJoinTime ps).head?

/-- The shared leave logic applied to one room: delete the member, then, if
the departing player was host and members remain, promote the member with
the smallest `joinTime`. (Removal of an emptied room from the registry is
done by the caller, `leaveStateUpdate`.) -/
def leaveRoomUpdate (room : Room) (pid : String) : Room :=
  if room.host = some pid ∧ 0 < (mapDelete room.players pid).length then
    match oldestPlayer ((mapDelete room.players pid).map Prod.snd) with
    | some p => { room with players := mapDelete room.players pid, host := some p.id }
    | none => { room with players := mapDelete room.players pid }
  else { room with players := mapDelete room.players pid }

/-! ### Messages written to sockets -/

/-- One message written to a client socket. `roomCreated`, `roomJoined` and
`errorMsg` go to the requesting connection; `gameResult` and `gameState`
carry the recipient member's id. -/
inductive OutMsg where
  | roomCreated (roomCode : String) (playerId : String) (isHost : Bool)
  | roomJoined (roomCode : String) (playerId : String) (isHost : Bool)
  | errorMsg (message : String)
  | gameResult (target : String) (role : Option String)
  | gameState (target : String) (roomCode : String) (maxPlayers : Nat)
      (roles : List RoleEntry) (currentPlayers : Nat) (gameStarted : Bool)
      (hostId : Option String) (isHost : Bool)
deriving DecidableEq, Repr

/-- `broadcastGameState(room)`: one personalized `gameState` snapshot per
member whose socket is open, in member insertion order. -/
def broadcastGameState (room : Room) : List OutMsg :=
  (room.players.filter (fun e => (Prod.snd e).wsOpen)).map
    (fun e => OutMsg.gameState (Prod.snd e).id room.code room.maxPlayers room.roles
      room.players.length room.gameStarted room.host
      (decide (room.host = some (Prod.snd e).id)))

/-! ### Global state and the per-connection handlers -/

/-- The global mutable state. `store` keeps every room object ever
allocated (JS object identities, so a session's stale `currentRoom`
reference still denotes a live object after the room left the registry);
`registry` is the `rooms` map, from code to object id. -/
structure GState where
  store : List (Nat × Room)
  registry : List (String × Nat)
  nextObj : Nat
deriving DecidableEq, Repr

/-- The closure state of one `wss.on('connection')` handler: the
connection's `playerId` and its `currentRoom` reference. -/
structure Session where
  playerId : String
  currentRoom : Option Nat
deriving DecidableEq, Repr

/-- The state of a freshly started server: no rooms. -/
def initState : GState := { store := [], registry := [], nextObj := 0 }

/-- The `createRoom` message case (lines 59-85). -/
def handleCreateRoom (g : GState) (sess : Session) (draws : List Nat) (now : Nat) :
    GState × Session × List OutMsg :=
  match generateRoomCode (g.registry.map Prod.fst) draws with
  | none => (g, sess, [])
  | some code =>
      let room : Room :=
        { createRoom code with
          host := some sess.playerId
          players := [(sess.playerId, ⟨sess.playerId, true, now⟩)] }
      ({ g with
          store := mapSet g.store g.nextObj room
          registry := mapSet g.registry code g.nextObj
          nextObj := g.nextObj + 1 },
       { sess with currentRoom := some g.nextObj },
       OutMsg.roomCreated code sess.playerId true :: broadcastGameState room)

/-- The `joinRoom` message case (lines 87-137). The inner `none` branch of
the store lookup is unreachable: the registry only ever maps to allocated
objects (clause `RegCoherent` of the invariant `Inv`). -/
def handleJoin (g : GState) (sess : Session) (code : String) (now : Nat) :
    GState × Session × List OutMsg :=
  match mapLookup g.registry code with
  | none => (g, sess, [OutMsg.errorMsg ("존재하지 않는 방 코드입니다.")])
  | some oid =>
      match mapLookup g.store oid with
      | none => (g, sess, [])
      | some room =>
          if room.gameStarted then
            (g, sess, [OutMsg.errorMsg ("이미 게임이 시작된 방입니다.")])
          else if room.maxPlayers ≤ room.players.length then
            (g, sess, [OutMsg.errorMsg ("방이 가득 찼습니다.")])
          else
            let room2 : Room :=
              { room with players := mapSet room.players sess.playerId ⟨sess.playerId, true, now⟩ }
            ({ g with store := mapSet g.store oid room2 },
             { sess with currentRoom := some oid },
             OutMsg.roomJoined code sess.playerId (decide (room.host = some sess.playerId))
               :: broadcastGameState room2)

/-- State effect shared by the `leaveRoom` case and the close handler:
remove the member from the referenced room object, run host succession,
and delete the room's code from the registry when it emptied. -/
def leaveStateUpdate (g : GState) (oid : Nat) (pid : String) : GState :=
  match mapLookup g.store oid with
  | none => g
  | some room =>
      let room2 := leaveRoomUpdate room pid
      if room2.players.length = 0 then
        { g with
            store := mapSet g.store oid room2
            registry := mapDelete g.registry room2.code }
      else { g with store := mapSet g.store oid room2 }

/-- Broadcast emitted by the leave logic: nothing when the room emptied
(it is deleted instead), otherwise a `gameState` push to the survivors. -/
def leaveOutputs (g : GState) (oid : Nat) (pid : String) : List OutMsg :=
  match mapLookup g.store oid with
  | none => []
  | some room =>
      let room2 := leaveRoomUpdate room pid
      if room2.players.length = 0 then [] else broadcastGameState room2

/-- The `leaveRoom` message case (lines 139-161): guarded by
`if (currentRoom)`, and always ends with `currentRoom = null`. -/
def handleLeaveRoom (g : GState) (sess : Session) : GState × Session × List OutMsg :=
  match sess.currentRoom with
  | none => (g, sess, [])
  | some oid =>
      (leaveStateUpdate g oid sess.playerId,
       { sess with currentRoom := none },
       leaveOutputs g oid sess.playerId)

/-- The `ws.on('close')` handler (lines 216-234): same leave logic, no
session left behind. -/
def handleClose (g : GState) (sess : Session) : GState × List OutMsg :=
  match sess.currentRoom with
  | none => (g, [])
  | some oid => (leaveStateUpdate g oid sess.playerId, leaveOutputs g oid sess.playerId)

/-- The `updateSettings` message case (lines 163-171). Note: the guard is
only `currentRoom && data.playerId === currentRoom.host`; there is no
`gameStarted` check. -/
def handleUpdateSettings (g : GState) (sess : Session) (claimedPid : String)
    (newMax : Nat) (newRoles : List RoleEntry) : GState × Session × List OutMsg :=
  match sess.currentRoom with
  | none => (g, sess, [])
  | some oid =>
      match mapLookup g.store oid with
      | none => (g, sess, [])
      | some room =>
          if room.host = some claimedPid then
            let room2 : Room := { room with maxPlayers := newMax, roles := newRoles }
            ({ g with store := mapSet g.store oid room2 }, sess, broadcastGameState room2)
          else (g, sess, [])

/-- The `startGame` message case (lines 173-209): guarded by
`currentRoom && data.playerId === currentRoom.host && !currentRoom.gameStarted`;
flips `gameStarted`, draws roles, sends each open member its own
`assignments.get(pid)` privately, then broadcasts. -/
def handleStartGame (g : GState) (sess : Session) (claimedPid : String)
    (picks : List Nat) : GState × Session × List OutMsg :=
  match sess.currentRoom with
  | none => (g, sess, [])
  | some oid =>
      match mapLookup g.store oid with
      | none => (g, sess, [])
      | some room =>
          if room.host = some claimedPid ∧ room.gameStarted = false then
            let room2 : Room := { room with gameStarted := true }
            let asg := assignRoles (room.players.map Prod.fst) (flatPool room.roles) picks
            ({ g with store := mapSet g.store oid room2 },
             sess,
             ((room2.players.filter (fun e => (Prod.snd e).wsOpen)).map
                (fun e => OutMsg.gameResult (Prod.fst e) ((mapLookup asg (Prod.fst e)).join)))
               ++ broadcastGameState room2)
          else (g, sess, [])

/-! ### Event system -/

/-- One transport event dispatched to the server: a new connection, one
inbound message on an existing connection, or a connection close. Message
steps act through the addressed session's closure state. -/
inductive Step : GState × List Session → GState × List Session → Prop
  | connect (g : GState) (ss : List Session) (pid : String) :
      Step (g, ss) (g, ss ++ [⟨pid, none⟩])
  | createMsg (g : GState) (ss : List Session) (i : Nat) (s : Session)
      (draws : List Nat) (now : Nat) (h : ss[i]? = some s) :
      Step (g, ss) ((handleCreateRoom g s draws now).1,
        ss.set i (handleCreateRoom g s draws now).2.1)
  | joinMsg (g : GState) (ss : List Session) (i : Nat) (s : Session)
      (code : String) (now : Nat) (h : ss[i]? = some s) :
      Step (g, ss) ((handleJoin g s code now).1, ss.set i (handleJoin g s code now).2.1)
  | leaveMsg (g : GState) (ss : List Session) (i : Nat) (s : Session)
      (h : ss[i]? = some s) :
      Step (g, ss) ((handleLeaveRoom g s).1, ss.set i (handleLeaveRoom g s).2.1)
  | settingsMsg (g : GState) (ss : List Session) (i : Nat) (s : Session)
      (claimedPid : String) (newMax : Nat) (newRoles : List RoleEntry)
      (h : ss[i]? = some s) :
      Step (g, ss) ((handleUpdateSettings g s claimedPid newMax newRoles).1,
        ss.set i (handleUpdateSettings g s claimedPid newMax newRoles).2.1)
  | startMsg (g : GState) (ss : List Session) (i : Nat) (s : Session)
      (claimedPid : String) (picks : List Nat) (h : ss[i]? = some s) :
      Step (g, ss) ((handleStartGame g s claimedPid picks).1,
        ss.set i (handleStartGame g s claimedPid picks).2.1)
  | closeEvt (g : GState) (ss : List Session) (i : Nat) (s : Session)
      (h : ss[i]? = some s) :
      Step (g, ss) ((handleClose g s).1, ss.eraseIdx i)

/-- Configurations reachable from a freshly started server. -/
def Reachable (cfg : GState × List Session) : Prop :=
  Relation.ReflTransGen Step (initState, []) cfg


/-! ### The registry invariant -/

/-- Well-formedness of a single room object: it has at least one member,
its `host` is the id of a current member, and every member record's `id`
field agrees with its key in the `players` map. -/
def RoomOK (room : Room) : Prop :=
  room.players ≠ [] ∧
  (∃ hid, room.host = some hid ∧ (mapLookup room.players hid).isSome) ∧
  (∀ e ∈ room.players, (Prod.snd e).id = Prod.fst e)

/-- Global invariant: registry codes are distinct, allocated object ids
are below the allocation counter, and every registered code maps to an
allocated room whose `code` field matches and which is well-formed. -/
def Inv (g : GState) : Prop :=
  (g.registry.map Prod.fst).Nodup ∧
  (∀ oid ∈ g.store.map Prod.fst, oid < g.nextObj) ∧
  (∀ c oid, mapLookup g.registry c = some oid →
    ∃ room, mapLookup g.store oid = some room ∧ room.code = c ∧ RoomOK room)

/-! ### Sequences of room creations -/

/-- A run of `N` successive `createRoom` events, each with its own draw
list: generate a code against the current registry key set, then register
it (the key-set effect of `rooms.set(roomCode, newRoom)`). Fails if any
generation exhausts its draws. -/
def runCreates (registryCodes : List String) : List (List Nat) → Option (List String)
  | [] => some []
  | d :: ds =>
      match generateRoomCode registryCodes d with
      | none => none
      | some c => (runCreates (c :: registryCodes) ds).map (fun cs => c :: cs)


/-! ### Concrete states used by the verification scenarios -/

/-- A fresh connection with player id `"100"`. -/
def sessW : Session := ⟨("100"), none⟩

/-- The global state after `"100"` connects and creates a room
(code draw 5, clock reading 7): one room with code `"1005"`. -/
def gW : GState := (handleCreateRoom initState sessW [5] 7).1

/-- The session list of that configuration. -/
def ssW : List Session := [(handleCreateRoom initState sessW [5] 7).2.1]

/-- A second, unattached connection. -/
def sessW2 : Session := ⟨("200"), none⟩

/-- A two-member room used for the start-game scenario. -/
def roomW6 : Room :=
  { code := ("4821")
    host := some ("h")
    maxPlayers := 5
    roles := [⟨("A"), 1⟩, ⟨("B"), 1⟩]
    players := [(("h"), ⟨("h"), true, 1⟩), (("p"), ⟨("p"), true, 2⟩)]
    gameStarted := false }

/-- A registry holding only `roomW6`. -/
def gW6 : GState := { store := [(0, roomW6)], registry := [(("4821"), 0)], nextObj := 1 }

/-- The host connection of `roomW6`. -/
def sessW6 : Session := ⟨("h"), some 0⟩

/-- A one-member room whose game has already started. -/
def roomW7 : Room :=
  { code := ("5555")
    host := some ("h")
    maxPlayers := 5
    roles := [⟨("당첨"), 3⟩, ⟨("꽝"), 2⟩]
    players := [(("h"), ⟨("h"), true, 1⟩)]
    gameStarted := true }

/-- A registry holding only `roomW7`. -/
def gW7 : GState := { store := [(0, roomW7)], registry := [(("5555"), 0)], nextObj := 1 }

/-- The host connection of `roomW7`. -/
def sessW7 : Session := ⟨("h"), some 0⟩

/-- A three-member room used for the host-succession scenario. -/
def roomW4 : Room :=
  { code := ("1234")
    host := some ("a")
    maxPlayers := 5
    roles := []
    players := [(("a"), ⟨("a"), true, 5⟩), (("b"), ⟨("b"), true, 9⟩), (("c"), ⟨("c"), true, 3⟩)]
    gameStarted := false }

section MapLemmas

variable {κ α : Type} [DecidableEq κ]

theorem mapLookup_mapSet_self (m : List (κ × α)) (k : κ) (v : α) :
    mapLookup (mapSet m k v) k = some v := by
  induction m with
  | nil => simp [mapLookup, mapSet]
  | cons e rest ih =>
      obtain ⟨k', w⟩ := e
      by_cases h : k' = k <;> simp [mapLookup, mapSet, h, ih]

theorem mapLookup_mapSet_ne (m : List (κ × α)) (k k' : κ) (v : α) (h : k' ≠ k) :
    mapLookup (mapSet m k v) k' = mapLookup m k' := by
  induction m with
  | nil => simp [mapLookup, mapSet, Ne.symm h]
  | cons e rest ih =>
      obtain ⟨k0, w⟩ := e
      by_cases h0 : k0 = k
      · subst h0
        simp [mapLookup, mapSet, Ne.symm h]
      · simp only [mapSet, if_neg h0, mapLookup]
        rw [ih]

theorem mapLookup_mapDelete_ne (m : List (κ × α)) (k k' : κ) (h : k' ≠ k) :
    mapLookup (mapDelete m k) k' = mapLookup m k' := by
  induction m with
  | nil => simp [mapDelete]
  | cons e rest ih =>
      obtain ⟨k0, w⟩ := e
      by_cases h0 : k0 = k
      · subst h0
        simp [mapLookup, mapDelete, Ne.symm h]
      · simp only [mapDelete, if_neg h0, mapLookup]
        rw [ih]

theorem mapLookup_eq_none_of_not_mem (m : List (κ × α)) (k : κ)
    (h : k ∉ m.map Prod.fst) : mapLookup m k = none := by
  induction m with
  | nil => rfl
  | cons e rest ih =>
      obtain ⟨k0, w⟩ := e
      simp only [List.map_cons, List.mem_cons] at h
      push_neg at h
      simp [mapLookup, Ne.symm h.1, ih h.2]

theorem mem_keys_of_mapLookup (m : List (κ × α)) (k : κ) (v : α)
    (h : mapLookup m k = some v) : k ∈ m.map Prod.fst := by
  induction m with
  | nil => simp [mapLookup] at h
  | cons e rest ih =>
      obtain ⟨k0, w⟩ := e
      by_cases h0 : k0 = k
      · subst h0; simp
      · simp only [mapLookup, if_neg h0] at h
        simp [ih h]

theorem mapLookup_isSome_of_mem (m : List (κ × α)) (k : κ) (v : α)
    (h : (k, v) ∈ m) : (mapLookup m k).isSome := by
  induction m with
  | nil => simp at h
  | cons e rest ih =>
      obtain ⟨k0, w⟩ := e
      by_cases h0 : k0 = k
      · simp [mapLookup, h0]
      · simp only [List.mem_cons] at h
        rcases h with h | h
        · exact absurd (congrArg Prod.fst h).symm h0
        · simp [mapLookup, h0, ih h]

theorem keys_mapSet_of_none (m : List (κ × α)) (k : κ) (v : α)
    (h : mapLookup m k = none) :
    (mapSet m k v).map Prod.fst = m.map Prod.fst ++ [k] := by
  induction m with
  | nil => simp [mapSet]
  | cons e rest ih =>
      obtain ⟨k0, w⟩ := e
      by_cases h0 : k0 = k
      · simp [mapLookup, h0] at h
      · simp only [mapLookup, if_neg h0] at h
        simp [mapSet, h0, ih h]

theorem keys_mapSet_of_isSome (m : List (κ × α)) (k : κ) (v : α)
    (h : (mapLookup m k).isSome) :
    (mapSet m k v).map Prod.fst = m.map Prod.fst := by
  induction m with
  | nil => simp [mapLookup] at h
  | cons e rest ih =>
      obtain ⟨k0, w⟩ := e
      by_cases h0 : k0 = k
      · subst h0; simp [mapSet]
      · simp only [mapLookup, if_neg h0] at h
        simp [mapSet, h0, ih h]

theorem mapDelete_sublist (m : List (κ × α)) (k : κ) :
    (mapDelete m k).Sublist m := by
  induction m with
  | nil => simp [mapDelete]
  | cons e rest ih =>
      obtain ⟨k0, w⟩ := e
      by_cases h0 : k0 = k
      · simp only [mapDelete, if_pos h0]
        exact List.sublist_cons_self (k0, w) rest
      · simpa [mapDelete, h0] using ih.cons₂ (k0, w)

theorem mem_of_mem_mapDelete (m : List (κ × α)) (k : κ) (e : κ × α)
    (h : e ∈ mapDelete m k) : e ∈ m :=
  (mapDelete_sublist m k).mem h

theorem keys_mapDelete_sublist (m : List (κ × α)) (k : κ) :
    ((mapDelete m k).map Prod.fst).Sublist (m.map Prod.fst) :=
  (mapDelete_sublist m k).map Prod.fst

theorem mapLookup_mapDelete_self (m : List (κ × α)) (k : κ)
    (h : (m.map Prod.fst).Nodup) : mapLookup (mapDelete m k) k = none := by
  induction m with
  | nil => rfl
  | cons e rest ih =>
      obtain ⟨k0, w⟩ := e
      simp only [List.map_cons, List.nodup_cons] at h
      by_cases h0 : k0 = k
      · subst h0
        simpa [mapDelete] using mapLookup_eq_none_of_not_mem rest k0 h.1
      · simp [mapDelete, mapLookup, h0, ih h.2]

theorem mem_of_mem_mapSet (m : List (κ × α)) (k : κ) (v : α) (e : κ × α)
    (h : e ∈ mapSet m k v) : e = (k, v) ∨ e ∈ m := by
  induction m with
  | nil => simpa [mapSet] using h
  | cons e0 rest ih =>
      obtain ⟨k0, w⟩ := e0
      by_cases h0 : k0 = k
      · rw [show mapSet ((k0, w) :: rest) k v = (k, v) :: rest from by simp [mapSet, h0]] at h
        rcases List.mem_cons.mp h with h1 | h1
        · exact Or.inl h1
        · exact Or.inr (List.mem_cons_of_mem _ h1)
      · rw [show mapSet ((k0, w) :: rest) k v = (k0, w) :: mapSet rest k v from
            by simp [mapSet, h0]] at h
        rcases List.mem_cons.mp h with h1 | h1
        · exact Or.inr (by simp [h1])
        · rcases ih h1 with h2 | h2
          · exact Or.inl h2
          · exact Or.inr (List.mem_cons_of_mem _ h2)

theorem mapSet_ne_nil (m : List (κ × α)) (k : κ) (v : α) :
    mapSet m k v ≠ [] := by
  cases m with
  | nil => simp [mapSet]
  | cons e rest =>
      obtain ⟨k0, w⟩ := e
      by_cases h0 : k0 = k <;> simp [mapSet, h0]

end MapLemmas

theorem generateRoomCode_not_mem (reg : List String) (draws : List Nat) (c : String)
    (h : generateRoomCode reg draws = some c) : c ∉ reg := by
  induction draws with
  | nil => simp [generateRoomCode] at h
  | cons k rest ih =>
      by_cases hmem : toString (1000 + k) ∈ reg
      · exact ih (by simpa [generateRoomCode, hmem] using h)
      · have : c = toString (1000 + k) := by
          simpa [generateRoomCode, hmem] using h.symm
        rw [this]
        exact hmem

theorem generateRoomCode_range (reg : List String) (draws : List Nat) (c : String)
    (hv : ∀ k ∈ draws, k < 9000) (h : generateRoomCode reg draws = some c) :
    ∃ n, 1000 ≤ n ∧ n ≤ 9999 ∧ c = toString n := by
  induction draws with
  | nil => simp [generateRoomCode] at h
  | cons k rest ih =>
      by_cases hmem : toString (1000 + k) ∈ reg
      · exact ih (fun j hj => hv j (List.mem_cons_of_mem _ hj))
          (by simpa [generateRoomCode, hmem] using h)
      · have hc : c = toString (1000 + k) := by
          simpa [generateRoomCode, hmem] using h.symm
        have hk : k < 9000 := hv k (List.mem_cons_self _ _)
        exact ⟨1000 + k, by omega, by omega, hc⟩

theorem oldestPlayer_spec (ps : List PlayerRec) (hne : ps ≠ []) :
    ∃ p, oldestPlayer ps = some p ∧ p ∈ ps ∧ ∀ q ∈ ps, p.joinTime ≤ q.joinTime := by
  have hperm := List.perm_insertionSort byJoinTime ps
  have hsorted := List.sorted_insertionSort byJoinTime ps
  cases hs : List.insertionSort byJoinTime ps with
  | nil =>
      rw [hs] at hperm
      exact absurd (hperm.symm.eq_nil) hne
  | cons p t =>
      refine ⟨p, ?_, ?_, ?_⟩
      · simp [oldestPlayer, hs]
      · exact hperm.mem_iff.mp (by rw [hs]; exact List.mem_cons_self _ _)
      · intro q hq
        have hq' : q ∈ p :: t := by rw [← hs]; exact hperm.mem_iff.mpr hq
        rcases List.mem_cons.mp hq' with h1 | h1
        · rw [h1]
        · rw [hs] at hsorted
          exact List.rel_of_sorted_cons hsorted q h1

theorem leaveRoomUpdate_players (room : Room) (pid : String) :
    (leaveRoomUpdate room pid).players = mapDelete room.players pid := by
  unfold leaveRoomUpdate
  split
  · split <;> rfl
  · rfl

theorem leaveRoomUpdate_code (room : Room) (pid : String) :
    (leaveRoomUpdate room pid).code = room.code := by
  unfold leaveRoomUpdate
  split
  · split <;> rfl
  · rfl

theorem roomOK_leaveRoomUpdate (room : Room) (pid : String) (hOK : RoomOK room)
    (hne : mapDelete room.players pid ≠ []) : RoomOK (leaveRoomUpdate room pid) := by
  obtain ⟨_, ⟨hid, hhost, hsome⟩, hkey⟩ := hOK
  have hkey' : ∀ e ∈ mapDelete room.players pid, (Prod.snd e).id = Prod.fst e :=
    fun e he => hkey e (mem_of_mem_mapDelete _ _ _ he)
  unfold leaveRoomUpdate
  by_cases hcond : room.host = some pid ∧ 0 < (mapDelete room.players pid).length
  · rw [if_pos hcond]
    have hvals : (mapDelete room.players pid).map Prod.snd ≠ [] := by
      simpa [List.map_eq_nil_iff] using hne
    obtain ⟨p, hp, hmem, _⟩ := oldestPlayer_spec _ hvals
    rw [hp]
    refine ⟨hne, ⟨p.id, rfl, ?_⟩, hkey'⟩
    obtain ⟨e, hemem, heq⟩ := List.mem_map.mp hmem
    have hpid : p.id = Prod.fst e := by rw [← heq]; exact hkey' e hemem
    rw [hpid]
    exact mapLookup_isSome_of_mem _ _ _ (by simpa using hemem)
  · rw [if_neg hcond]
    have hlen : 0 < (mapDelete room.players pid).length :=
      List.length_pos.mpr hne
    have hnohost : room.host ≠ some pid := fun hh => hcond ⟨hh, hlen⟩
    have hidne : hid ≠ pid := by
      intro hh
      exact hnohost (hh ▸ hhost)
    refine ⟨hne, ⟨hid, hhost, ?_⟩, hkey'⟩
    rw [mapLookup_mapDelete_ne _ _ _ hidne]
    exact hsome

/-! ### Invariant preservation -/

theorem inv_initState : Inv initState := by
  refine ⟨List.nodup_nil, ?_, ?_⟩
  · intro oid h
    simp [initState] at h
  · intro c oid h
    simp [initState, mapLookup] at h

theorem inv_storeSet_same_members (g : GState) (oid : Nat) (room room2 : Room)
    (hlook : mapLookup g.store oid = some room)
    (hcode : room2.code = room.code) (hplayers : room2.players = room.players)
    (hhost : room2.host = room.host) (hInv : Inv g) :
    Inv { g with store := mapSet g.store oid room2 } := by
  obtain ⟨hnodup, hfresh, hcoh⟩ := hInv
  refine ⟨hnodup, ?_, ?_⟩
  · intro oid0 h0
    exact hfresh oid0 (by
      rwa [keys_mapSet_of_isSome _ _ _ (by simp [hlook])] at h0)
  · intro c0 oid0 h0
    obtain ⟨room0, hr0, hc0, hOK0⟩ := hcoh c0 oid0 h0
    by_cases he : oid0 = oid
    · subst he
      have : room0 = room := by
        rw [hlook] at hr0
        exact (Option.some.injEq _ _ ▸ hr0).symm
      subst this
      refine ⟨room2, mapLookup_mapSet_self _ _ _, by rw [hcode, hc0], ?_⟩
      obtain ⟨hne0, hhost0, hkey0⟩ := hOK0
      exact ⟨by rw [hplayers]; exact hne0,
             by rw [hplayers, hhost]; exact hhost0,
             by rw [hplayers]; exact hkey0⟩
    · rw [mapLookup_mapSet_ne _ _ _ _ he] at *
      exact ⟨room0, hr0, hc0, hOK0⟩

theorem inv_handleCreateRoom (g : GState) (sess : Session) (draws : List Nat)
    (now : Nat) (hInv : Inv g) : Inv (handleCreateRoom g sess draws now).1 := by
  obtain ⟨hnodup, hfresh, hcoh⟩ := hInv
  rcases hgen : generateRoomCode (g.registry.map Prod.fst) draws with _ | code
  · simp only [handleCreateRoom, hgen]
    exact ⟨hnodup, hfresh, hcoh⟩
  · simp only [handleCreateRoom, hgen]
    have hcfresh : code ∉ g.registry.map Prod.fst :=
      generateRoomCode_not_mem _ _ _ hgen
    have hclook : mapLookup g.registry code = none :=
      mapLookup_eq_none_of_not_mem _ _ hcfresh
    have hofresh : g.nextObj ∉ g.store.map Prod.fst := by
      intro hmem
      exact absurd (hfresh _ hmem) (Nat.lt_irrefl _)
    have holook : mapLookup g.store g.nextObj = none :=
      mapLookup_eq_none_of_not_mem _ _ hofresh
    refine ⟨?_, ?_, ?_⟩
    · rw [keys_mapSet_of_none _ _ _ hclook]
      exact List.Nodup.append hnodup (List.nodup_singleton _) (by simpa using hcfresh)
    · intro oid0 h0
      rw [keys_mapSet_of_none _ _ _ holook] at h0
      rcases List.mem_append.mp h0 with h1 | h1
      · exact Nat.lt_succ_of_lt (hfresh _ h1)
      · simp at h1
        rw [h1]
        exact Nat.lt_succ_self _
    · intro c0 oid0 h0
      by_cases hc : c0 = code
      · subst hc
        rw [mapLookup_mapSet_self] at h0
        have : oid0 = g.nextObj := by simpa using h0.symm
        subst this
        refine ⟨_, mapLookup_mapSet_self _ _ _, rfl, ?_, ?_, ?_⟩
        · simp
        · exact ⟨sess.playerId, rfl, by simp [mapLookup]⟩
        · intro e he
          simp at he
          simp [he]
      · rw [mapLookup_mapSet_ne _ _ _ _ hc] at h0
        obtain ⟨room0, hr0, hc0, hOK0⟩ := hcoh c0 oid0 h0
        have hne : oid0 ≠ g.nextObj := by
          intro hh
          exact hofresh (hh ▸ mem_keys_of_mapLookup _ _ _ hr0)
        rw [mapLookup_mapSet_ne _ _ _ _ hne]
        exact ⟨room0, hr0, hc0, hOK0⟩

theorem inv_handleJoin (g : GState) (sess : Session) (code : String) (now : Nat)
    (hInv : Inv g) : Inv (handleJoin g sess code now).1 := by
  obtain ⟨hnodup, hfresh, hcoh⟩ := hInv
  rcases hreg : mapLookup g.registry code with _ | oid
  · simp only [handleJoin, hreg]
    exact ⟨hnodup, hfresh, hcoh⟩
  · rcases hst : mapLookup g.store oid with _ | room
    · simp only [handleJoin, hreg, hst]
      exact ⟨hnodup, hfresh, hcoh⟩
    · by_cases hgs : room.gameStarted = true
      · simp only [handleJoin, hreg, hst]
        rw [if_pos hgs]
        exact ⟨hnodup, hfresh, hcoh⟩
      · by_cases hfull : room.maxPlayers ≤ room.players.length
        · simp only [handleJoin, hreg, hst]
          rw [if_neg hgs, if_pos hfull]
          exact ⟨hnodup, hfresh, hcoh⟩
        · simp only [handleJoin, hreg, hst]
          rw [if_neg hgs, if_neg hfull]
          refine ⟨hnodup, ?_, ?_⟩
          · intro oid0 h0
            exact hfresh oid0 (by
              rwa [keys_mapSet_of_isSome _ _ _ (by simp [hst])] at h0)
          · intro c0 oid0 h0
            obtain ⟨room0, hr0, hc0, hOK0⟩ := hcoh c0 oid0 h0
            by_cases he : oid0 = oid
            · subst he
              have : room0 = room := by
                rw [hst] at hr0
                exact (Option.some.injEq _ _ ▸ hr0).symm
              subst this
              obtain ⟨hne0, ⟨hid, hhost0, hsome0⟩, hkey0⟩ := hOK0
              refine ⟨_, mapLookup_mapSet_self _ _ _, hc0, ?_, ⟨hid, hhost0, ?_⟩, ?_⟩
              · exact mapSet_ne_nil _ _ _
              · by_cases hh : hid = sess.playerId
                · subst hh
                  simp [mapLookup_mapSet_self]
                · rw [mapLookup_mapSet_ne _ _ _ _ hh]
                  exact hsome0
              · intro e he
                rcases mem_of_mem_mapSet _ _ _ _ he with h1 | h1
                · simp [h1]
                · exact hkey0 e h1
            · rw [mapLookup_mapSet_ne _ _ _ _ he]
              exact ⟨room0, hr0, hc0, hOK0⟩

theorem inv_leaveStateUpdate (g : GState) (oid : Nat) (pid : String)
    (hInv : Inv g) : Inv (leaveStateUpdate g oid pid) := by
  obtain ⟨hnodup, hfresh, hcoh⟩ := hInv
  rcases hst : mapLookup g.store oid with _ | room
  · simp only [leaveStateUpdate, hst]
    exact ⟨hnodup, hfresh, hcoh⟩
  · by_cases hlen : (leaveRoomUpdate room pid).players.length = 0
    · simp only [leaveStateUpdate, hst]
      rw [if_pos hlen]
      refine ⟨(keys_mapDelete_sublist _ _).nodup hnodup, ?_, ?_⟩
      · intro oid0 h0
        exact hfresh oid0 (by
          rwa [keys_mapSet_of_isSome _ _ _ (by simp [hst])] at h0)
      · intro c0 oid0 h0
        by_cases hc : c0 = (leaveRoomUpdate room pid).code
        · rw [hc, mapLookup_mapDelete_self _ _ hnodup] at h0
          exact absurd h0 (by simp)
        · rw [mapLookup_mapDelete_ne _ _ _ hc] at h0
          obtain ⟨room0, hr0, hc0, hOK0⟩ := hcoh c0 oid0 h0
          have hne : oid0 ≠ oid := by
            intro hh
            subst hh
            rw [hst] at hr0
            have : room0 = room := (Option.some.injEq _ _ ▸ hr0).symm
            subst this
            exact hc (by rw [← hc0, leaveRoomUpdate_code])
          rw [mapLookup_mapSet_ne _ _ _ _ hne]
          exact ⟨room0, hr0, hc0, hOK0⟩
    · simp only [leaveStateUpdate, hst]
      rw [if_neg hlen]
      refine ⟨hnodup, ?_, ?_⟩
      · intro oid0 h0
        exact hfresh oid0 (by
          rwa [keys_mapSet_of_isSome _ _ _ (by simp [hst])] at h0)
      · intro c0 oid0 h0
        obtain ⟨room0, hr0, hc0, hOK0⟩ := hcoh c0 oid0 h0
        by_cases he : oid0 = oid
        · subst he
          have : room0 = room := by
            rw [hst] at hr0
            exact (Option.some.injEq _ _ ▸ hr0).symm
          subst this
          refine ⟨_, mapLookup_mapSet_self _ _ _, by rw [leaveRoomUpdate_code, hc0], ?_⟩
          refine roomOK_leaveRoomUpdate _ _ hOK0 ?_
          intro hnil
          rw [leaveRoomUpdate_players] at hlen
          exact hlen (by rw [hnil]; rfl)
        · rw [mapLookup_mapSet_ne _ _ _ _ he]
          exact ⟨room0, hr0, hc0, hOK0⟩

theorem inv_handleLeaveRoom (g : GState) (sess : Session) (hInv : Inv g) :
    Inv (handleLeaveRoom g sess).1 := by
  rcases hcr : sess.currentRoom with _ | oid
  · simp only [handleLeaveRoom, hcr]
    exact hInv
  · simp only [handleLeaveRoom, hcr]
    exact inv_leaveStateUpdate g oid sess.playerId hInv

theorem inv_handleClose (g : GState) (sess : Session) (hInv : Inv g) :
    Inv (handleClose g sess).1 := by
  rcases hcr : sess.currentRoom with _ | oid
  · simp only [handleClose, hcr]
    exact hInv
  · simp only [handleClose, hcr]
    exact inv_leaveStateUpdate g oid sess.playerId hInv

theorem inv_handleUpdateSettings (g : GState) (sess : Session) (claimedPid : String)
    (newMax : Nat) (newRoles : List RoleEntry) (hInv : Inv g) :
    Inv (handleUpdateSettings g sess claimedPid newMax newRoles).1 := by
  rcases hcr : sess.currentRoom with _ | oid
  · simp only [handleUpdateSettings, hcr]
    exact hInv
  · rcases hst : mapLookup g.store oid with _ | room
    · simp only [handleUpdateSettings, hcr, hst]
      exact hInv
    · by_cases hh : room.host = some claimedPid
      · simp only [handleUpdateSettings, hcr, hst]
        rw [if_pos hh]
        exact inv_storeSet_same_members g oid room _ hst rfl rfl rfl hInv
      · simp only [handleUpdateSettings, hcr, hst]
        rw [if_neg hh]
        exact hInv

theorem inv_handleStartGame (g : GState) (sess : Session) (claimedPid : String)
    (picks : List Nat) (hInv : Inv g) :
    Inv (handleStartGame g sess claimedPid picks).1 := by
  rcases hcr : sess.currentRoom with _ | oid
  · simp only [handleStartGame, hcr]
    exact hInv
  · rcases hst : mapLookup g.store oid with _ | room
    · simp only [handleStartGame, hcr, hst]
      exact hInv
    · by_cases hh : room.host = some claimedPid ∧ room.gameStarted = false
      · simp only [handleStartGame, hcr, hst]
        rw [if_pos hh]
        exact inv_storeSet_same_members g oid room _ hst rfl rfl rfl hInv
      · simp only [handleStartGame, hcr, hst]
        rw [if_neg hh]
        exact hInv

theorem inv_step (c1 c2 : GState × List Session) (h : Step c1 c2)
    (hInv : Inv c1.1) : Inv c2.1 := by
  cases h with
  | connect g ss pid => exact hInv
  | createMsg g ss i s draws now h => exact inv_handleCreateRoom g s draws now hInv
  | joinMsg g ss i s code now h => exact inv_handleJoin g s code now hInv
  | leaveMsg g ss i s h => exact inv_handleLeaveRoom g s hInv
  | settingsMsg g ss i s claimedPid newMax newRoles h =>
      exact inv_handleUpdateSettings g s claimedPid newMax newRoles hInv
  | startMsg g ss i s claimedPid picks h =>
      exact inv_handleStartGame g s claimedPid picks hInv
  | closeEvt g ss i s h => exact inv_handleClose g s hInv

theorem inv_reachable (cfg : GState × List Session) (h : Reachable cfg) :
    Inv cfg.1 := by
  induction h with
  | refl => exact inv_initState
  | tail _ hstep ih => exact inv_step _ _ hstep ih


/-! ### Role-assignment lemmas -/

theorem perm_get_cons_eraseIdx {α : Type} (l : List α) (k : Nat) (h : k < l.length) :
    (l[k] :: l.eraseIdx k).Perm l := by
  induction l generalizing k with
  | nil => simp at h
  | cons a t ih =>
      cases k with
      | zero => exact List.Perm.refl _
      | succ k =>
          have hk : k < t.length := by simpa using h
          have h1 : (t[k] :: a :: t.eraseIdx k).Perm (a :: t[k] :: t.eraseIdx k) :=
            List.Perm.swap a t[k] (t.eraseIdx k)
          exact h1.trans ((ih k hk).cons a)

theorem count_eraseIdx_add {α : Type} [DecidableEq α] (l : List α) (k : Nat)
    (h : k < l.length) (s : α) :
    l.count s = (l.eraseIdx k).count s + (if l[k] = s then 1 else 0) := by
  have hperm := perm_get_cons_eraseIdx l k h
  rw [← hperm.count_eq, List.count_cons]
  simp [beq_iff_eq]

theorem length_eraseIdx_of_lt {α : Type} (l : List α) (k : Nat) (h : k < l.length) :
    (l.eraseIdx k).length = l.length - 1 := by
  have := List.length_eraseIdx_add_one h
  omega

/-- Core correctness of the draw loop `assignRoles`, over an arbitrary flat
pool: with one valid pick per player and a pool at least as large as the
player list, the result lists exactly the players in order, every drawn
role is a real pool element, and no pool element is drawn more often than
it occurs. -/
theorem assignRoles_spec (players : List String) (pool : List String) (picks : List Nat)
    (hlen : picks.length = players.length)
    (hvalid : validPicks pool.length picks = true)
    (henough : players.length ≤ pool.length) :
    ((assignRoles players pool picks).map Prod.fst = players) ∧
    (∀ e ∈ assignRoles players pool picks, (Prod.snd e).isSome = true) ∧
    (∀ s, ((assignRoles players pool picks).filterMap Prod.snd).count s ≤ pool.count s) := by
  induction players generalizing pool picks with
  | nil => simp [assignRoles]
  | cons p ps ih =>
      cases picks with
      | nil => simp at hlen
      | cons k ks =>
          have hpoolpos : 0 < pool.length :=
            Nat.lt_of_lt_of_le (Nat.succ_pos ps.length) (by simpa using henough)
          simp only [validPicks, Bool.and_eq_true, Bool.or_eq_true, decide_eq_true_eq,
            Bool.and_eq_true] at hvalid
          have hk : k < pool.length := by
            rcases hvalid.1 with h1 | h1
            · exact h1
            · omega
          have hlenerase : (pool.eraseIdx k).length = pool.length - 1 :=
            length_eraseIdx_of_lt pool k hk
          have hlen' : ks.length = ps.length := by simpa using hlen
          have hvalid' : validPicks (pool.eraseIdx k).length ks = true := by
            rw [hlenerase]
            exact hvalid.2
          have henough' : ps.length ≤ (pool.eraseIdx k).length := by
            rw [hlenerase]
            have : ps.length + 1 ≤ pool.length := by simpa using henough
            omega
          obtain ⟨ihfst, ihsome, ihcount⟩ := ih (pool.eraseIdx k) ks hlen' hvalid' henough'
          have hget : pool[k]? = some (pool[k]) := List.getElem?_eq_getElem hk
          refine ⟨?_, ?_, ?_⟩
          · simp [assignRoles, ihfst]
          · intro e he
            simp only [assignRoles, List.mem_cons] at he
            rcases he with he | he
            · rw [he, hget]
              rfl
            · exact ihsome e he
          · intro s
            have hfm : List.filterMap Prod.snd (assignRoles (p :: ps) pool (k :: ks))
                = pool[k] :: List.filterMap Prod.snd (assignRoles ps (pool.eraseIdx k) ks) := by
              show List.filterMap Prod.snd ((p, pool[k]?) :: assignRoles ps (pool.eraseIdx k) ks) = _
              rw [hget]
              simp
            rw [hfm, count_eraseIdx_add pool k hk s]
            have hc := ihcount s
            by_cases he : pool[k] = s
            · rw [if_pos he]
              have hcl : (pool[k]
                    :: List.filterMap Prod.snd (assignRoles ps (pool.eraseIdx k) ks)).count s
                  = (List.filterMap Prod.snd (assignRoles ps (pool.eraseIdx k) ks)).count s + 1 := by
                simp [List.count_cons, he]
              rw [hcl]
              omega
            · rw [if_neg he]
              have hcl : (pool[k]
                    :: List.filterMap Prod.snd (assignRoles ps (pool.eraseIdx k) ks)).count s
                  = (List.filterMap Prod.snd (assignRoles ps (pool.eraseIdx k) ks)).count s := by
                simp [List.count_cons, he]
              rw [hcl]
              omega

/-! ### Flat-pool counting -/

theorem length_flatPool (roles : List RoleEntry) :
    (flatPool roles).length = (roles.map RoleEntry.count).sum := by
  induction roles with
  | nil => rfl
  | cons r rest ih =>
      show (List.replicate r.count r.name ++ flatPool rest).length = _
      rw [List.length_append, List.length_replicate, ih]
      simp

theorem count_flatPool_eq_zero (roles : List RoleEntry) (s : String)
    (h : s ∉ roles.map RoleEntry.name) : (flatPool roles).count s = 0 := by
  induction roles with
  | nil => rfl
  | cons r rest ih =>
      simp only [List.map_cons, List.mem_cons] at h
      push_neg at h
      have hne : (r.name == s) = false := by
        simp [Ne.symm h.1]
      show (List.replicate r.count r.name ++ flatPool rest).count s = 0
      rw [List.count_append, ih h.2, List.count_replicate, hne]
      simp

theorem count_flatPool (roles : List RoleEntry) (r : RoleEntry)
    (hnodup : (roles.map RoleEntry.name).Nodup) (hmem : r ∈ roles) :
    (flatPool roles).count r.name = r.count := by
  induction roles with
  | nil => simp at hmem
  | cons r0 rest ih =>
      simp only [List.map_cons, List.nodup_cons] at hnodup
      rcases List.mem_cons.mp hmem with h1 | h1
      · subst h1
        show (List.replicate r.count r.name ++ flatPool rest).count r.name = r.count
        rw [List.count_append, count_flatPool_eq_zero rest r.name hnodup.1,
          List.count_replicate_self]
        simp
      · have hne : (r0.name == r.name) = false := by
          simp only [beq_eq_false_iff_ne, ne_eq]
          intro hh
          exact hnodup.1 (hh ▸ List.mem_map.mpr ⟨r, h1, rfl⟩)
        show (List.replicate r0.count r0.name ++ flatPool rest).count r.name = r.count
        rw [List.count_append, List.count_replicate, hne, ih hnodup.2 h1]
        simp

theorem runCreates_spec (registryCodes : List String) (draws : List (List Nat))
    (codes : List String) (h : runCreates registryCodes draws = some codes) :
    codes.Nodup ∧ ∀ c ∈ codes, c ∉ registryCodes := by
  induction draws generalizing registryCodes codes with
  | nil =>
      simp only [runCreates, Option.some.injEq] at h
      subst h
      simp
  | cons d ds ih =>
      rcases hgen : generateRoomCode registryCodes d with _ | c
      · simp only [runCreates, hgen] at h
        exact Option.noConfusion h
      · simp only [runCreates, hgen] at h
        rcases hrun : runCreates (c :: registryCodes) ds with _ | cs
        · rw [hrun] at h
          simp at h
        · rw [hrun] at h
          have hcodes : codes = c :: cs := by simpa using h.symm
          subst hcodes
          obtain ⟨hnodup, hfreshrec⟩ := ih (c :: registryCodes) cs hrun
          have hcfresh : c ∉ registryCodes := generateRoomCode_not_mem _ _ _ hgen
          refine ⟨List.nodup_cons.mpr ⟨?_, hnodup⟩, ?_⟩
          · intro hcmem
            exact (hfreshrec c hcmem) (List.mem_cons_self _ _)
          · intro c0 hc0
            rcases List.mem_cons.mp hc0 with h1 | h1
            · rw [h1]
              exact hcfresh
            · intro hc0reg
              exact (hfreshrec c0 h1) (List.mem_cons_of_mem _ hc0reg)


/-! ### Claims -/

/-- Claim C1: for every role pool whose total count is at least the number
of players, the role-assignment step of `startGame` returns one entry per
player, in order (so every player is covered exactly once), every drawn
role is an actual label (never the out-of-range `undefined`), the draws
are without replacement from the flat multiset of labels (no label drawn
more often than it occurs there), and — for pools with distinct role
names — each role name appears at most its configured count. -/
theorem claimC1_roleAssignment (players : List String) (roles : List RoleEntry)
    (picks : List Nat)
    (hlen : picks.length = players.length)
    (hvalid : validPicks (flatPool roles).length picks = true)
    (henough : players.length ≤ (roles.map RoleEntry.count).sum) :
    ((assignRoles players (flatPool roles) picks).map Prod.fst = players) ∧
    (∀ e ∈ assignRoles players (flatPool roles) picks, (Prod.snd e).isSome = true) ∧
    (∀ s, ((assignRoles players (flatPool roles) picks).filterMap Prod.snd).count s
        ≤ (flatPool roles).count s) ∧
    ((roles.map RoleEntry.name).Nodup → ∀ r ∈ roles,
      ((assignRoles players (flatPool roles) picks).filterMap Prod.snd).count r.name
        ≤ r.count) := by
  have henough2 : players.length ≤ (flatPool roles).length := by
    rw [length_flatPool]
    exact henough
  obtain ⟨h1, h2, h3⟩ := assignRoles_spec players (flatPool roles) picks hlen hvalid henough2
  refine ⟨h1, h2, h3, ?_⟩
  intro hnd r hr
  rw [← count_flatPool roles r hnd hr]
  exact h3 r.name

/-- Witness for C1: two players, pool X:1 Y:2, picks 1 and 1. -/
theorem claimC1_witness :
    ((assignRoles ["a", "b"] (flatPool [⟨("X"), 1⟩, ⟨("Y"), 2⟩]) [1, 1]).map Prod.fst
        = ["a", "b"]) ∧
    (∀ e ∈ assignRoles ["a", "b"] (flatPool [⟨("X"), 1⟩, ⟨("Y"), 2⟩]) [1, 1],
      (Prod.snd e).isSome = true) ∧
    (∀ s, ((assignRoles ["a", "b"] (flatPool [⟨("X"), 1⟩, ⟨("Y"), 2⟩]) [1, 1]).filterMap
        Prod.snd).count s ≤ (flatPool [⟨("X"), 1⟩, ⟨("Y"), 2⟩]).count s) ∧
    (([⟨("X"), 1⟩, ⟨("Y"), 2⟩].map RoleEntry.name).Nodup →
      ∀ r ∈ [RoleEntry.mk ("X") 1, RoleEntry.mk ("Y") 2],
        ((assignRoles ["a", "b"] (flatPool [⟨("X"), 1⟩, ⟨("Y"), 2⟩]) [1, 1]).filterMap
          Prod.snd).count r.name ≤ r.count) :=
  claimC1_roleAssignment ["a", "b"] [⟨("X"), 1⟩, ⟨("Y"), 2⟩] [1, 1] rfl (by decide) (by decide)

/-- Claim C2 is a code bug: with two players and a pool totalling one
label, the draw loop does not abort with an `InsufficientRoles` error (no
such error exists in the source); it hands the one label to the first
player and the JS `undefined` (modelled `none`) to the second — a partial
mapping. -/
theorem claimC2_insufficientRolesBug :
    assignRoles ["p1", "p2"] (flatPool [⟨("당첨"), 1⟩]) [0, 0]
      = [(("p1"), some ("당첨")), (("p2"), none)] := by
  decide

/-- Claim C4: after the shared leave/close update in which the departing
player was the host and members remain, the promoted host is a remaining
member whose `joinTime` is minimal among the remaining members. -/
theorem claimC4_hostSuccession (room : Room) (pid : String)
    (hhost : room.host = some pid)
    (hne : mapDelete room.players pid ≠ []) :
    ∃ p, p ∈ (leaveRoomUpdate room pid).players.map Prod.snd ∧
      (leaveRoomUpdate room pid).host = some p.id ∧
      ∀ q ∈ (leaveRoomUpdate room pid).players.map Prod.snd, p.joinTime ≤ q.joinTime := by
  have hlen : 0 < (mapDelete room.players pid).length := List.length_pos.mpr hne
  have hvals : (mapDelete room.players pid).map Prod.snd ≠ [] := by
    simpa [List.map_eq_nil_iff] using hne
  obtain ⟨p, hp, hmem, hmin⟩ := oldestPlayer_spec _ hvals
  unfold leaveRoomUpdate
  rw [if_pos ⟨hhost, hlen⟩, hp]
  exact ⟨p, hmem, rfl, hmin⟩

/-- Witness for C4: host `"a"` (time 5) leaves a room whose other members
joined at times 9 and 3; the promoted host is the time-3 member. -/
theorem claimC4_witness :
    ∃ p, p ∈ (leaveRoomUpdate roomW4 ("a")).players.map Prod.snd ∧
      (leaveRoomUpdate roomW4 ("a")).host = some p.id ∧
      ∀ q ∈ (leaveRoomUpdate roomW4 ("a")).players.map Prod.snd, p.joinTime ≤ q.joinTime :=
  claimC4_hostSuccession roomW4 ("a") rfl (by decide)


/-- Claim C3: in every reachable server configuration, every room present
in the registry is an allocated object with at least one member whose
`host` field is the id of a current member — equivalently, emptied rooms
are deleted from the registry in the same step, so no state ever has an
empty or hostless room registered. -/
theorem claimC3_registryInvariant (g : GState) (ss : List Session)
    (hreach : Reachable (g, ss)) (c : String) (oid : Nat)
    (hc : mapLookup g.registry c = some oid) :
    ∃ room, mapLookup g.store oid = some room ∧ room.players ≠ [] ∧
      ∃ hid, room.host = some hid ∧ (mapLookup room.players hid).isSome = true := by
  obtain ⟨_, _, hcoh⟩ := inv_reachable (g, ss) hreach
  obtain ⟨room, hr, _, hOK⟩ := hcoh c oid hc
  obtain ⟨hne, ⟨hid, hhost, hsome⟩, _⟩ := hOK
  exact ⟨room, hr, hne, hid, hhost, hsome⟩

/-- Witness for C3: the state reached by one connect event followed by one
`createRoom` message; code `"1005"` is registered and its room satisfies
the invariant. -/
theorem claimC3_witness :
    ∃ room, mapLookup gW.store 0 = some room ∧ room.players ≠ [] ∧
      ∃ hid, room.host = some hid ∧ (mapLookup room.players hid).isSome = true :=
  claimC3_registryInvariant gW ssW
    (Relation.ReflTransGen.tail
      (Relation.ReflTransGen.single (Step.connect initState [] ("100")))
      (Step.createMsg initState ([] ++ [⟨("100"), none⟩]) 0 sessW [5] 7 rfl))
    ("1005") 0 (by decide)

/-- Claim C7 counterexample: `updateSettings` is not a no-op after the
game has started — in `gW7` the room's `gameStarted` is `true`, yet a host
settings request changes `maxPlayers` from 5 to 9 and replaces the roles,
mutating the state. -/
theorem claimC7_counterexample :
    roomW7.gameStarted = true ∧
    mapLookup gW7.store 0 = some roomW7 ∧
    mapLookup (handleUpdateSettings gW7 sessW7 ("h") 9 []).1.store 0
      = some { roomW7 with maxPlayers := 9, roles := [] } ∧
    (handleUpdateSettings gW7 sessW7 ("h") 9 []).1 ≠ gW7 := by
  refine ⟨rfl, rfl, by decide, by decide⟩

/-- Claim C7 amended: `updateSettings` replaces `maxPlayers` and `roles`
wholesale whenever the session is attached to a room whose `host` equals
the message's `playerId`, regardless of `gameStarted` — the source has no
game-started guard, so even after the game has started a host settings
request changes the room. -/
theorem claimC7_amended (g : GState) (sess : Session) (claimedPid : String)
    (newMax : Nat) (newRoles : List RoleEntry) (oid : Nat) (room : Room)
    (hcr : sess.currentRoom = some oid) (hst : mapLookup g.store oid = some room)
    (hh : room.host = some claimedPid) :
    mapLookup (handleUpdateSettings g sess claimedPid newMax newRoles).1.store oid
      = some { room with maxPlayers := newMax, roles := newRoles } := by
  simp only [handleUpdateSettings, hcr, hst]
  rw [if_pos hh]
  exact mapLookup_mapSet_self _ _ _

/-- Witness for the amended C7, at the started room `roomW7`. -/
theorem claimC7_amended_witness :
    mapLookup (handleUpdateSettings gW7 sessW7 ("h") 9 []).1.store 0
      = some { roomW7 with maxPlayers := 9, roles := [] } :=
  claimC7_amended gW7 sessW7 ("h") 9 [] 0 roomW7 rfl rfl rfl

theorem runCreates_range (registryCodes : List String) (draws : List (List Nat))
    (codes : List String)
    (hvalid : ∀ d ∈ draws, ∀ k ∈ d, k < 9000)
    (h : runCreates registryCodes draws = some codes) :
    ∀ c ∈ codes, ∃ n, 1000 ≤ n ∧ n ≤ 9999 ∧ c = toString n := by
  induction draws generalizing registryCodes codes with
  | nil =>
      simp only [runCreates, Option.some.injEq] at h
      subst h
      simp
  | cons d ds ih =>
      rcases hgen : generateRoomCode registryCodes d with _ | c
      · simp only [runCreates, hgen] at h
        exact Option.noConfusion h
      · simp only [runCreates, hgen] at h
        rcases hrun : runCreates (c :: registryCodes) ds with _ | cs
        · rw [hrun] at h
          simp at h
        · rw [hrun] at h
          have hcodes : codes = c :: cs := by simpa using h.symm
          subst hcodes
          intro c0 hc0
          rcases List.mem_cons.mp hc0 with h1 | h1
          · rw [h1]
            exact generateRoomCode_range registryCodes d c
              (hvalid d (List.mem_cons_self _ _)) hgen
          · exact ih (c :: registryCodes) cs
              (fun d0 hd0 => hvalid d0 (List.mem_cons_of_mem _ hd0)) hrun c0 h1

/-- Claim C8: in a successful run of room creations, every generated code
is the 4-digit decimal string of a number in [1000, 9999] and was absent
from the registry when generated; consequently the codes of any such run
(in particular any N ≤ 9000 concurrently-live creations) are pairwise
distinct. -/
theorem claimC8_roomCodes (registryCodes : List String) (draws : List (List Nat))
    (codes : List String)
    (hvalid : ∀ d ∈ draws, ∀ k ∈ d, k < 9000)
    (hrun : runCreates registryCodes draws = some codes) :
    codes.Nodup ∧
    ∀ c ∈ codes, (∃ n, 1000 ≤ n ∧ n ≤ 9999 ∧ c = toString n) ∧ c ∉ registryCodes := by
  obtain ⟨hnodup, hfresh⟩ := runCreates_spec registryCodes draws codes hrun
  have hrange := runCreates_range registryCodes draws codes hvalid hrun
  exact ⟨hnodup, fun c hc => ⟨hrange c hc, hfresh c hc⟩⟩

/-- Witness for C8: three creations against an empty registry; the second
first draws a colliding 5 and resamples 6. -/
theorem claimC8_witness :
    (["1005", "1006", "1007"] : List String).Nodup ∧
    ∀ c ∈ (["1005", "1006", "1007"] : List String),
      (∃ n, 1000 ≤ n ∧ n ≤ 9999 ∧ c = toString n) ∧ c ∉ ([] : List String) :=
  claimC8_roomCodes [] [[5], [5, 6], [7]] ["1005", "1006", "1007"]
    (by decide) (by decide)

/-- Claim C9: leaving is idempotent under double invocation — an explicit
`leaveRoom` always ends with the session detached (`currentRoom = none`),
so the subsequent connection-close for the same player changes nothing:
no second member removal, no second host succession, no message. -/
theorem claimC9_leaveIdempotent (g : GState) (sess : Session) :
    ((handleLeaveRoom g sess).2.1).currentRoom = none ∧
    handleClose (handleLeaveRoom g sess).1 (handleLeaveRoom g sess).2.1
      = ((handleLeaveRoom g sess).1, []) := by
  rcases hcr : sess.currentRoom with _ | oid
  · simp [handleLeaveRoom, handleClose, hcr]
  · simp [handleLeaveRoom, handleClose, hcr]

/-- Claim C10: a newly created room has the fixed defaults `maxPlayers 5`,
role pool 당첨:3 / 꽝:2, `gameStarted = false`, no host and no members; the
`createRoom` message case then registers it with the creator inserted as
host and sole member. -/
theorem claimC10_createDefaults (g : GState) (sess : Session) (draws : List Nat)
    (now : Nat) (code : String)
    (hgen : generateRoomCode (g.registry.map Prod.fst) draws = some code) :
    (createRoom code).maxPlayers = 5 ∧
    (createRoom code).roles = [⟨("당첨"), 3⟩, ⟨("꽝"), 2⟩] ∧
    (createRoom code).gameStarted = false ∧
    (createRoom code).players = [] ∧
    (createRoom code).host = none ∧
    mapLookup (handleCreateRoom g sess draws now).1.registry code = some g.nextObj ∧
    mapLookup (handleCreateRoom g sess draws now).1.store g.nextObj
      = some { createRoom code with
          host := some sess.playerId
          players := [(sess.playerId, ⟨sess.playerId, true, now⟩)] } := by
  refine ⟨rfl, rfl, rfl, rfl, rfl, ?_, ?_⟩
  · simp only [handleCreateRoom, hgen]
    exact mapLookup_mapSet_self _ _ _
  · simp only [handleCreateRoom, hgen]
    exact mapLookup_mapSet_self _ _ _

/-- Witness for C10, at the fresh server state. -/
theorem claimC10_witness :
    (createRoom ("1005")).maxPlayers = 5 ∧
    (createRoom ("1005")).roles = [⟨("당첨"), 3⟩, ⟨("꽝"), 2⟩] ∧
    (createRoom ("1005")).gameStarted = false ∧
    (createRoom ("1005")).players = [] ∧
    (createRoom ("1005")).host = none ∧
    mapLookup (handleCreateRoom initState sessW [5] 7).1.registry ("1005")
      = some initState.nextObj ∧
    mapLookup (handleCreateRoom initState sessW [5] 7).1.store initState.nextObj
      = some { createRoom ("1005") with
          host := some sessW.playerId
          players := [(sessW.playerId, ⟨sessW.playerId, true, 7⟩)] } :=
  claimC10_createDefaults initState sessW [5] 7 ("1005") (by decide)


/-- Claim C5: `joinRoom` fails with the room-not-found error when the code
is unmapped, with the already-started error when `gameStarted`, with the
room-full error when `players.size >= maxPlayers` — in each failing case
the state (registry, rooms and session) is returned unchanged and the
single error reply is the only message, with no broadcast; otherwise the
player is inserted with the current timestamp as `joinTime` and the
session attaches to the room. -/
theorem claimC5_joinRoom (g : GState) (sess : Session) (code : String) (now : Nat) :
    (mapLookup g.registry code = none →
      handleJoin g sess code now
        = (g, sess, [OutMsg.errorMsg ("존재하지 않는 방 코드입니다.")])) ∧
    (∀ oid room, mapLookup g.registry code = some oid →
      mapLookup g.store oid = some room →
      (room.gameStarted = true →
        handleJoin g sess code now
          = (g, sess, [OutMsg.errorMsg ("이미 게임이 시작된 방입니다.")])) ∧
      (room.gameStarted = false → room.maxPlayers ≤ room.players.length →
        handleJoin g sess code now
          = (g, sess, [OutMsg.errorMsg ("방이 가득 찼습니다.")])) ∧
      (room.gameStarted = false → room.players.length < room.maxPlayers →
        ∃ room2,
          (handleJoin g sess code now).1 = { g with store := mapSet g.store oid room2 } ∧
          room2.players = mapSet room.players sess.playerId ⟨sess.playerId, true, now⟩ ∧
          mapLookup room2.players sess.playerId = some ⟨sess.playerId, true, now⟩ ∧
          (handleJoin g sess code now).2.1 = { sess with currentRoom := some oid })) := by
  refine ⟨?_, ?_⟩
  · intro hreg
    simp only [handleJoin, hreg]
  · intro oid room hreg hst
    refine ⟨?_, ?_, ?_⟩
    · intro hgs
      simp only [handleJoin, hreg, hst]
      rw [if_pos hgs]
    · intro hgs hfull
      simp only [handleJoin, hreg, hst]
      rw [if_neg (by simp [hgs]), if_pos hfull]
    · intro hgs hlt
      have hnotfull : ¬ room.maxPlayers ≤ room.players.length := Nat.not_le.mpr hlt
      simp only [handleJoin, hreg, hst]
      rw [if_neg (by simp [hgs]), if_neg hnotfull]
      exact ⟨_, rfl, rfl, mapLookup_mapSet_self _ _ _, rfl⟩

/-- Witness for C5: joining an unknown code in the one-room state `gW`. -/
theorem claimC5_witness :
    handleJoin gW sessW2 ("9999") 5
      = (gW, sessW2, [OutMsg.errorMsg ("존재하지 않는 방 코드입니다.")]) :=
  (claimC5_joinRoom gW sessW2 ("9999") 5).1 (by decide)

theorem broadcastGameState_started (room : Room) (t rc : String) (mp : Nat)
    (rl : List RoleEntry) (cp : Nat) (gs : Bool) (hid : Option String) (ihost : Bool)
    (h : OutMsg.gameState t rc mp rl cp gs hid ihost ∈ broadcastGameState room) :
    gs = room.gameStarted := by
  unfold broadcastGameState at h
  obtain ⟨e, he, heq⟩ := List.mem_map.mp h
  cases heq
  rfl

/-- Claim C6: `startGame` has an effect only when the session is attached,
the message's `playerId` equals the room's host and the game has not yet
started; when effective it flips `gameStarted`, assigns roles over the
current member id list and role pool, sends each (open) member exactly one
private `gameResult` carrying that member's own assigned role, then emits
one broadcast all of whose messages show `gameStarted = true`; and in the
two-player scenario with pool A:1, B:1 the delivered roles are A,B or B,A
in member order — never both the same. -/
theorem claimC6_startGame (g : GState) (sess : Session) (claimedPid : String)
    (picks : List Nat) :
    (sess.currentRoom = none → handleStartGame g sess claimedPid picks = (g, sess, [])) ∧
    (∀ oid room, sess.currentRoom = some oid → mapLookup g.store oid = some room →
      (¬(room.host = some claimedPid ∧ room.gameStarted = false) →
        handleStartGame g sess claimedPid picks = (g, sess, [])) ∧
      (room.host = some claimedPid → room.gameStarted = false →
        ((handleStartGame g sess claimedPid picks).1
            = { g with store := mapSet g.store oid { room with gameStarted := true } }) ∧
        ((∀ e ∈ room.players, (Prod.snd e).wsOpen = true) →
          (handleStartGame g sess claimedPid picks).2.2
            = room.players.map (fun e => OutMsg.gameResult (Prod.fst e)
                ((mapLookup (assignRoles (room.players.map Prod.fst)
                  (flatPool room.roles) picks) (Prod.fst e)).join))
              ++ broadcastGameState { room with gameStarted := true }) ∧
        (∀ t rc mp rl cp gs hid ihost,
          OutMsg.gameState t rc mp rl cp gs hid ihost
              ∈ broadcastGameState { room with gameStarted := true } → gs = true) ∧
        (∀ a b pa pb,
          room.players = [(a, pa), (b, pb)] → a ≠ b →
          pa.wsOpen = true → pb.wsOpen = true →
          room.roles = [⟨("A"), 1⟩, ⟨("B"), 1⟩] →
          validPicks 2 picks = true → picks.length = 2 →
          ((handleStartGame g sess claimedPid picks).2.2
              = OutMsg.gameResult a (some ("A")) :: OutMsg.gameResult b (some ("B"))
                :: broadcastGameState { room with gameStarted := true }
            ∨ (handleStartGame g sess claimedPid picks).2.2
              = OutMsg.gameResult a (some ("B")) :: OutMsg.gameResult b (some ("A"))
                :: broadcastGameState { room with gameStarted := true })))) := by
  refine ⟨?_, ?_⟩
  · intro hcr
    simp only [handleStartGame, hcr]
  · intro oid room hcr hst
    refine ⟨?_, ?_⟩
    · intro hguard
      simp only [handleStartGame, hcr, hst]
      rw [if_neg hguard]
    · intro hhost hgs
      have hguard : room.host = some claimedPid ∧ room.gameStarted = false := ⟨hhost, hgs⟩
      refine ⟨?_, ?_, ?_, ?_⟩
      · simp only [handleStartGame, hcr, hst]
        rw [if_pos hguard]
      · intro hopen
        have hfilter : room.players.filter (fun e => (Prod.snd e).wsOpen) = room.players :=
          List.filter_eq_self.mpr (fun e he => hopen e he)
        simp only [handleStartGame, hcr, hst]
        rw [if_pos hguard]
        dsimp only
        rw [hfilter]
      · intro t rc mp rl cp gs hid ihost hmem
        exact broadcastGameState_started _ _ _ _ _ _ _ _ _ hmem
      · intro a b pa pb hplayers hab hpa hpb hroles hvalid hplen
        obtain ⟨k0, k1, hpicks⟩ := List.length_eq_two.mp hplen
        subst hpicks
        simp [validPicks] at hvalid
        have hk0 : k0 = 0 ∨ k0 = 1 := by omega
        have hk1 : k1 = 0 := by omega
        subst hk1
        simp only [handleStartGame, hcr, hst]
        rw [if_pos hguard]
        dsimp only
        rw [hplayers, hroles]
        rcases hk0 with h0 | h0
        · subst h0
          left
          simp [assignRoles, flatPool, mapLookup, hpa, hpb, hab, Option.join]
        · subst h0
          right
          simp [assignRoles, flatPool, mapLookup, hpa, hpb, hab, Option.join]

/-- Witness for C6: the host starts `roomW6` (pool A:1, B:1, two members)
with picks 0, 0; member `"h"` receives role A and member `"p"` role B. -/
theorem claimC6_witness :
    (handleStartGame gW6 sessW6 ("h") [0, 0]).2.2
        = OutMsg.gameResult ("h") (some ("A")) :: OutMsg.gameResult ("p") (some ("B"))
          :: broadcastGameState { roomW6 with gameStarted := true }
      ∨ (handleStartGame gW6 sessW6 ("h") [0, 0]).2.2
        = OutMsg.gameResult ("h") (some ("B")) :: OutMsg.gameResult ("p") (some ("A"))
          :: broadcastGameState { roomW6 with gameStarted := true } :=
  ((((claimC6_startGame gW6 sessW6 ("h") [0, 0]).2 0 roomW6 rfl rfl).2 rfl rfl).2.2.2)
    ("h") ("p") ⟨("h"), true, 1⟩ ⟨("p"), true, 2⟩ rfl (by decide) rfl rfl rfl
    (by decide) rfl

end Smartto

